import Mathlib

/-!
Verification of the release-notes ingestion pipeline.

This file gives a shallow embedding, in Lean 4, of the core components of the
ingestion pipeline (content identification, semantic chunking, deduplicating
embedding coordination, vector-store upserts and the checkpoint ledgers), and
proves or refutes the specified properties against that embedding.

External collaborators (the object store, the conversion service, the embedding
HTTP backends, the vector-store client and the tokenizer-based text splitter)
are modelled as oracle functions supplied as parameters; everything the
repository's own Python code computes is translated directly from the source.
-/

namespace Ingest

/-! ## String utilities

Python string operations used by the components, modelled over `List Char`. -/

/-- Python whitespace characters (the ASCII ones matched by `str.strip` and
by `\s` in the `re` module). -/
def isPyWs (c : Char) : Bool :=
  c = ' ' || c = '\t' || c = '\n' || c = '\r' || c = '\x0b' || c = '\x0c'

/-- `pat` is a prefix of `s`. -/
def isPrefixL : List Char → List Char → Bool
  | [], _ => true
  | _ :: _, [] => false
  | a :: as, b :: bs => a = b && isPrefixL as bs

/-- `pat` occurs as a contiguous substring of `s` (Python `pat in s`). -/
def containsSubL (pat : List Char) : List Char → Bool
  | [] => isPrefixL pat []
  | c :: r => isPrefixL pat (c :: r) || containsSubL pat r

/-- Python `str.strip()`: drop leading and trailing whitespace. -/
def pyStrip (l : List Char) : List Char :=
  ((l.dropWhile isPyWs).reverse.dropWhile isPyWs).reverse

/-- Split a character list into its lines (separator `'\n'`). -/
def splitLines : List Char → List (List Char)
  | [] => [[]]
  | c :: r =>
    if c = '\n' then [] :: splitLines r
    else
      match splitLines r with
      | [] => [[c]]
      | l :: ls => (c :: l) :: ls

/-- Remainder of `s` after the first occurrence of `pat`, if any. -/
def dropThroughSub (pat : List Char) : List Char → Option (List Char)
  | [] => if pat.isEmpty then some [] else none
  | c :: r =>
    if isPrefixL pat (c :: r) then some ((c :: r).drop pat.length)
    else dropThroughSub pat r

/-- `Path(key).name`: the final component of a `/`-separated key. -/
def basename (key : String) : String :=
  match (key.splitOn "/").getLast? with
  | some n => n
  | none => key

/-! ## Semantic chunker (`src/components/chunker.py`)

`SemanticChunker._detect_element_type` classifies a chunk from its markdown
syntax; `SemanticChunker.chunk_markdown` runs the (external) recursive text
splitter and tags the pieces with 1-based sequence numbers.  Python's
`re.search` is used without `DOTALL`, so `.` never matches a newline; the
image pattern is therefore decided line by line, and the `MULTILINE` list
patterns are decided at the start of the text and after every newline. -/

/-- Markdown table test from the source: a pipe character together with a
row-separator fragment (`'|' in text and ('---' in text or '|-' in text)`). -/
def hasTableMark (s : List Char) : Bool :=
  s.contains '|' && (containsSubL "---".data s || containsSubL "|-".data s)

/-- One line matches the image pattern `!\[.*?\]\(.*?\)`: an occurrence of
`![`, later `](` on the same line, and a closing parenthesis after that. -/
def imageLineCheck (l : List Char) : Bool :=
  match dropThroughSub "![".data l with
  | none => false
  | some r1 =>
    match dropThroughSub "](".data r1 with
    | none => false
    | some r2 => r2.contains ')'

/-- `re.search` of the markdown image pattern over the whole text. -/
def hasImageRef (s : List Char) : Bool :=
  (splitLines s).any imageLineCheck

/-- Code test from the source: a fence, or a stripped text starting with four
spaces (`'```' in text or text.strip().startswith('    ')`). -/
def hasCodeMark (s : List Char) : Bool :=
  containsSubL "```".data s || isPrefixL "    ".data (pyStrip s)

/-- From a `^` position: `[\s]*[-*+]\s` (whitespace, a bullet, whitespace). -/
def bulletAt (l : List Char) : Bool :=
  match l.dropWhile isPyWs with
  | c :: d :: _ => (c = '-' || c = '*' || c = '+') && isPyWs d
  | _ => false

/-- From a `^` position: `[\s]*\d+\.\s` (whitespace, digits, a dot, whitespace). -/
def numberAt (l : List Char) : Bool :=
  let r := l.dropWhile isPyWs
  let ds := r.takeWhile Char.isDigit
  if ds.isEmpty then false
  else
    match r.drop ds.length with
    | '.' :: d :: _ => isPyWs d
    | _ => false

/-- `p` holds at some position directly after a newline. -/
def afterNewlines (p : List Char → Bool) : List Char → Bool
  | [] => false
  | c :: r => (c = '\n' && p r) || afterNewlines p r

/-- `re.search` with `MULTILINE`: `p` holds at the start or after a newline. -/
def multilineAny (p : List Char → Bool) (s : List Char) : Bool :=
  p s || afterNewlines p s

/-- Markdown list test from the source: a bulleted or a numbered line. -/
def hasListMark (s : List Char) : Bool :=
  multilineAny bulletAt s || multilineAny numberAt s

/-- `SemanticChunker._detect_element_type`: first matching class wins, in the
order table, image, code, list, default text. -/
def detect_element_type (s : List Char) : String :=
  if hasTableMark s then "Table"
  else if hasImageRef s then "Image"
  else if hasCodeMark s then "Code"
  else if hasListMark s then "List"
  else "Text"

/-- A chunk as built by `chunk_markdown` (class `Chunk` in the source). -/
structure Chunk where
  text : String
  filename : String
  chunk_number : Nat
  element_type : String
  md5_hash : String
  deriving DecidableEq, Repr

/-- `SemanticChunker.chunk_markdown`: run the text splitter (an external
collaborator, passed as the oracle `split`), then tag each produced piece with
a 1-based sequence number (`enumerate(text_chunks, start=1)`), its detected
element type and the hash of its text (`file_hasher.hash_text`, passed as the
oracle `hashText`). -/
def chunk_markdown (split : String → List String) (hashText : String → String)
    (markdown_content : String) (filename : String) : List Chunk :=
  (split markdown_content).enum.map fun it =>
    { text := it.2
      filename := filename
      chunk_number := it.1 + 1
      element_type := detect_element_type it.2.data
      md5_hash := hashText it.2 }

/-! ## Vector store writer (`src/components/qdrant_uploader.py`)

The Qdrant client is an external collaborator.  A collection is modelled as an
association list from point id to payload, and `client.upsert` as an
update-or-append on that list, with a boolean oracle deciding whether the call
raises.  `uuid.uuid5(NAMESPACE_DNS, name)` is a pure function of `name`; it is
modelled as an arbitrary function `uuid5 : String → String`. -/

/-- An embedding vector. -/
abbrev Vec := List Int

/-- Payload of a record in the filename collection. -/
structure FilenamePoint where
  vector : Vec
  pagecontent : String
  source : String
  hash : String
  deriving DecidableEq, Repr

/-- Payload of a record in the content collection. -/
structure ContentPoint where
  vector : Vec
  pagecontent : String
  filename : String
  page_number : Nat
  element_type : String
  md5_hash : String
  deriving DecidableEq, Repr

/-- A collection: point id → payload, as an association list. -/
abbrev PStore (P : Type) := List (String × P)

/-- Upsert semantics: a write with an existing id overwrites that record in
place, a write with a fresh id appends. -/
def upsertPoint {P : Type} (st : PStore P) (p : String × P) : PStore P :=
  if st.any (fun q => q.1 = p.1) then
    st.map (fun q => if q.1 = p.1 then p else q)
  else st ++ [p]

/-- The ids present in a collection. -/
def storeIds {P : Type} (st : PStore P) : List String :=
  st.map Prod.fst

/-- `QdrantUploader.upload_filename`: one identity record per item, keyed by
`uuid5(NAMESPACE_DNS, filename)`; returns failure when the upsert call raises
(oracle `upsertOk`). -/
def upload_filename (uuid5 : String → String) (upsertOk : Bool)
    (st : PStore FilenamePoint) (filename : String) (embedding : Vec)
    (file_hash : String) : Bool × PStore FilenamePoint :=
  let point_id := uuid5 filename
  if upsertOk then
    (true, upsertPoint st (point_id,
      { vector := embedding, pagecontent := filename, source := filename,
        hash := file_hash }))
  else (false, st)

/-- The deterministic chunk-record identifier:
`uuid5(NAMESPACE_DNS, f"(filename)_(chunk_number)")`. -/
def content_point_id (uuid5 : String → String) (filename : String) (n : Nat) : String :=
  uuid5 (filename ++ "_" ++ toString n)

/-- The points built by `upload_content_chunks` from `zip(chunks, embeddings)`:
a chunk whose embedding is `None` is skipped with a warning, every other chunk
yields exactly one point. -/
def contentPoints (uuid5 : String → String) (filename : String) :
    List Chunk → List (Option Vec) → PStore ContentPoint
  | [], _ => []
  | _ :: _, [] => []
  | c :: cs, e :: es =>
    match e with
    | none => contentPoints uuid5 filename cs es
    | some v =>
      (content_point_id uuid5 filename c.chunk_number,
        { vector := v, pagecontent := c.text, filename := filename,
          page_number := c.chunk_number, element_type := c.element_type,
          md5_hash := c.md5_hash }) :: contentPoints uuid5 filename cs es

/-- Recursion core for batching: the fuel argument (initially the list
length, which bounds the number of batches) only makes the recursion
structural; it never changes the result. -/
def chunksOfFuel {α : Type} (bs : Nat) : Nat → List α → List (List α)
  | _, [] => []
  | 0, _ :: _ => []
  | fuel + 1, x :: xs =>
    if bs = 0 then []
    else (x :: xs).take bs :: chunksOfFuel bs fuel ((x :: xs).drop bs)

/-- Split a list into consecutive batches of size `bs`
(`range(0, len(points), batch_size)` slicing). -/
def chunksOf {α : Type} (bs : Nat) (l : List α) : List (List α) :=
  chunksOfFuel bs l.length l

/-- The batch upload loop: batch `i` is written only if `upsertOk i` holds;
the first raising batch aborts the call with `False`, keeping the records the
earlier batches already wrote. -/
def upsertBatchesGo (upsertOk : Nat → Bool) :
    Nat → PStore ContentPoint → List (PStore ContentPoint) → Bool × PStore ContentPoint
  | _, st, [] => (true, st)
  | i, st, b :: rest =>
    if upsertOk i then upsertBatchesGo upsertOk (i + 1) (b.foldl upsertPoint st) rest
    else (false, st)

/-- `QdrantUploader.upload_content_chunks`: length-mismatch is an immediate
failure, `None` embeddings are skipped, an empty point set is a failure, and
the points are upserted in batches of 100. -/
def upload_content_chunks (uuid5 : String → String) (upsertOk : Nat → Bool)
    (st : PStore ContentPoint) (filename : String) (chunks : List Chunk)
    (embeddings : List (Option Vec)) : Bool × PStore ContentPoint :=
  if chunks.length ≠ embeddings.length then (false, st)
  else
    let points := contentPoints uuid5 filename chunks embeddings
    if points.isEmpty then (false, st)
    else upsertBatchesGo upsertOk 0 st (chunksOf 100 points)

/-! ## Embedding backends (`src/components/backends/`)

`OllamaBackend.generate_batch_embeddings` and
`GeminiBackend.generate_batch_embeddings` slice the input into batches of the
configured `batch_size` and issue one backend call per batch.  The HTTP/API
calls are oracles: `batchCall` is the batch endpoint (raising = `Except.error`,
its `.ok` value is the embeddings array of the response), `singleCall` is the
one-text `generate_embedding` method (which either returns a vector or
raises).  The two backends differ in their failure handling, which is exactly
what the theorems below examine. -/

/-- Result of a batch-embedding run: the returned list plus how many batch
calls and how many single-text calls were issued against the backend. -/
structure BatchResult (α : Type) where
  embeddings : List (Option α)
  batchCalls : Nat
  singleCalls : Nat
  deriving DecidableEq, Repr

/-- One Ollama batch iteration: use the batch response when it has the right
length, otherwise (exception or length mismatch) fall back to sequential
per-text calls for this batch, substituting `none` for an individual failure.
Returns the embeddings for the batch and the number of single calls made. -/
def ollamaBatchStep {α : Type} (batchCall : List String → Except Unit (List α))
    (singleCall : String → Except Unit α) (b : List String) :
    List (Option α) × Nat :=
  match batchCall b with
  | Except.ok embs =>
    if embs.length = b.length then (embs.map some, 0)
    else (b.map fun t => (singleCall t).toOption, b.length)
  | Except.error _ => (b.map fun t => (singleCall t).toOption, b.length)

/-- The Ollama batch loop over the slices. -/
def ollamaLoop {α : Type} (batchCall : List String → Except Unit (List α))
    (singleCall : String → Except Unit α) :
    List (List String) → BatchResult α
  | [] => ⟨[], 0, 0⟩
  | b :: rest =>
    let step := ollamaBatchStep batchCall singleCall b
    let r := ollamaLoop batchCall singleCall rest
    ⟨step.1 ++ r.embeddings, r.batchCalls + 1, step.2 + r.singleCalls⟩

/-- `OllamaBackend.generate_batch_embeddings`. -/
def ollama_generate_batch_embeddings {α : Type}
    (batchCall : List String → Except Unit (List α))
    (singleCall : String → Except Unit α) (batch_size : Nat)
    (texts : List String) : BatchResult α :=
  ollamaLoop batchCall singleCall (chunksOf batch_size texts)

/-- A Gemini batch response is accepted when it is non-empty and has one
embedding per text (`if not embeddings_data or len(embeddings_data) !=
len(batch_texts): raise ValueError`). -/
def geminiBatchOk {α : Type} (batchCall : List String → Except Unit (List α))
    (b : List String) : Bool :=
  match batchCall b with
  | Except.ok embs => !(embs.isEmpty || embs.length != b.length)
  | Except.error _ => false

/-- Outcome of the Gemini batch loop: either every batch was accepted, or the
first rejected batch aborted the loop; `calls` counts the batch calls made
(including a rejected one). -/
inductive GeminiLoopResult (α : Type) where
  | success (embs : List α) (calls : Nat)
  | failure (calls : Nat)
  deriving DecidableEq, Repr

/-- The Gemini batch loop: the whole loop body sits inside one `try`, so the
first raising batch call (or malformed response) aborts the entire loop,
discarding the embeddings already collected from earlier batches. -/
def geminiLoop {α : Type} (batchCall : List String → Except Unit (List α)) :
    List (List String) → GeminiLoopResult α
  | [] => GeminiLoopResult.success [] 0
  | b :: rest =>
    match batchCall b with
    | Except.ok embs =>
      if embs.isEmpty || embs.length != b.length then GeminiLoopResult.failure 1
      else
        match geminiLoop batchCall rest with
        | GeminiLoopResult.success more calls =>
          GeminiLoopResult.success (embs ++ more) (calls + 1)
        | GeminiLoopResult.failure calls => GeminiLoopResult.failure (calls + 1)
    | Except.error _ => GeminiLoopResult.failure 1

/-- `GeminiBackend.generate_batch_embeddings`: on any batch failure the
`except` handler falls back to sequential per-text calls over the WHOLE input
list (not just the failing batch), substituting `none` for an individual
failure. -/
def gemini_generate_batch_embeddings {α : Type}
    (batchCall : List String → Except Unit (List α))
    (singleCall : String → Except Unit α) (batch_size : Nat)
    (texts : List String) : BatchResult α :=
  match geminiLoop batchCall (chunksOf batch_size texts) with
  | GeminiLoopResult.success embs calls => ⟨embs.map some, calls, 0⟩
  | GeminiLoopResult.failure calls =>
    ⟨texts.map fun t => (singleCall t).toOption, calls, texts.length⟩

/-! ## Checkpoint ledgers (`src/components/log_manager.py`) and the retry
script (`scripts/retry_failed_files.py`)

The ledgers are JSON arrays of flat objects.  For the failure ledger the exact
field names matter (the retry script reads them back), so its records are
modelled as association lists of string fields, with Python's `dict.get`
semantics. -/

/-- A flat JSON object of string fields. -/
abbrev JsonObj := List (String × String)

/-- Python `dict.get(key)`: `none` when the key is absent. -/
def pyGet (o : JsonObj) (key : String) : Option String :=
  match o.find? (fun kv => kv.1 = key) with
  | some kv => some kv.2
  | none => none

/-- Python `dict.get(key, default)`. -/
def pyGetD (o : JsonObj) (key : String) (dflt : String) : String :=
  (pyGet o key).getD dflt

/-- `LogManager.add_failed_entry`: appends a record with fields `filename`,
`hash`, `datetime`, `error`, `stage` to `failed.json`. -/
def add_failed_entry (entries : List JsonObj)
    (filename file_hash dt error stage : String) : List JsonObj :=
  entries ++ [[("filename", filename), ("hash", file_hash), ("datetime", dt),
    ("error", error), ("stage", stage)]]

/-- `FailedFileRetry.remove_from_failed_log`: keeps the entries whose
`file_hash` field differs from the given hash
(`[f for f in failed_files if f.get('file_hash') != file_hash]`; an absent
key reads as `None`, which never equals a string). -/
def remove_from_failed_log (failed_files : List JsonObj) (file_hash : String) :
    List JsonObj :=
  failed_files.filter fun f => pyGet f "file_hash" != some file_hash

/-- The hash `FailedFileRetry.run` reads from a failure-ledger entry before
reprocessing and removal: `failed_entry.get('file_hash', '')`. -/
def retry_entry_file_hash (entry : JsonObj) : String :=
  pyGetD entry "file_hash" ""

/-- Result of the Qdrant `scroll` call issued by the existence check: the list
of matching points, or a raised exception with its message text. -/
abbrev ScrollResult := Except String (List Unit)

/-- The warning bookkeeping of `LogManager.check_qdrant_exists`: the
`_index_warning_shown` attribute, plus a count of warnings actually emitted
(for stating the once-per-run property). -/
structure DedupCheckState where
  index_warning_shown : Bool
  warnings_emitted : Nat
  deriving DecidableEq, Repr

/-- `LogManager.check_qdrant_exists`: a successful scroll reports whether a
point carrying the hash exists; a raised exception is caught — when the
message signals the missing payload index
(`"Index required but not found"` together with `"metadata.md5_hash"`) a
warning is emitted unless it was already shown, and the item is reported as
not found; any other error is also reported as not found.  The function never
re-raises. -/
def check_qdrant_exists (scroll : ScrollResult) (st : DedupCheckState) :
    Bool × DedupCheckState :=
  match scroll with
  | Except.ok results => (decide (0 < results.length), st)
  | Except.error msg =>
    if containsSubL "Index required but not found".data msg.data &&
        containsSubL "metadata.md5_hash".data msg.data then
      if st.index_warning_shown then (false, st)
      else
        (false,
          { index_warning_shown := true,
            warnings_emitted := st.warnings_emitted + 1 })
    else (false, st)

/-- A whole run's worth of existence checks, threading the warning state. -/
def run_qdrant_checks (scrolls : List ScrollResult) (st : DedupCheckState) :
    DedupCheckState :=
  scrolls.foldl (fun s sc => (check_qdrant_exists sc s).2) st

/-! ## Deduplicating embedding coordinator
(`src/components/embedding_client.py`)

`EmbeddingClient.generate_batch_embeddings_with_dedup` returns `None` as the
skip sentinel and otherwise the embeddings list; the embedding-success and
skip ledgers and the backend-call counter live in `CoordState`.  The backend
call for one chunk text is the oracle `contentEmbed` (the client's own
`generate_batch_embeddings` loops over the chunks sequentially, one backend
call each). -/

/-- An `embedding.json` record (`LogManager.log_embedding_success`). -/
structure EmbedEntry where
  filename : String
  md5_hash : String
  collection_name : String
  chunks_created : Nat
  model_name : String
  deriving DecidableEq, Repr

/-- A `skipped.json` record (`LogManager.log_skipped_file`). -/
structure SkipEntry where
  filename : String
  md5_hash : String
  skip_reason : String
  found_in : String
  collection_name : String
  deriving DecidableEq, Repr

/-- `LogManager.check_embedding_exists`, with a collection filter when given. -/
def check_embedding_exists (log : List EmbedEntry) (md5_hash : String)
    (collection_name : Option String) : Bool :=
  match collection_name with
  | some c => log.any fun e => e.md5_hash == md5_hash && e.collection_name == c
  | none => log.any fun e => e.md5_hash == md5_hash

/-- State owned by the coordinator: the two phase-3 ledgers, the warning state
of the Qdrant existence check, and how many embedding-backend calls were made. -/
structure CoordState where
  embedding_log : List EmbedEntry
  skipped_log : List SkipEntry
  dedup : DedupCheckState
  backend_calls : Nat
  deriving DecidableEq, Repr

/-- The generation tail of `generate_batch_embeddings_with_dedup`: embed every
chunk (one backend call each, `None` for an individual failure), then log an
embedding-success entry when logging is enabled and a log manager exists. -/
def coordGenerate (has_log_manager enable_logging : Bool)
    (contentEmbed : String → Option Vec) (filename file_hash : String)
    (chunks : List String) (collection_name model_name : String)
    (st : CoordState) : Option (List (Option Vec)) × CoordState :=
  if enable_logging && has_log_manager then
    (some (chunks.map contentEmbed),
      { st with backend_calls := st.backend_calls + chunks.length,
                embedding_log := st.embedding_log ++
                  [{ filename := filename, md5_hash := file_hash,
                     collection_name := collection_name,
                     chunks_created := chunks.length,
                     model_name := model_name }] })
  else
    (some (chunks.map contentEmbed),
      { st with backend_calls := st.backend_calls + chunks.length })

/-- `EmbeddingClient.generate_batch_embeddings_with_dedup`.  `file_hash` is
`FileHasher.hash_file_lightweight(file_content)`, computed by the caller's
hash oracle.  The dedup checks run only when the client was constructed with
a log manager and no force-reprocess override is set; check 1 consults the
embedding ledger filtered by collection, check 2 queries Qdrant (only when a
client was passed); each hit appends a skip record and returns the `None`
sentinel.  A genuine miss generates the embeddings. -/
def generate_batch_embeddings_with_dedup (has_log_manager : Bool)
    (enable_deduplication enable_logging : Bool)
    (contentEmbed : String → Option Vec) (has_qdrant_client : Bool)
    (scroll : ScrollResult) (filename file_hash : String)
    (chunks : List String) (collection_name model_name : String)
    (force_reprocess : Bool) (st : CoordState) :
    Option (List (Option Vec)) × CoordState :=
  if enable_deduplication && !force_reprocess && has_log_manager then
    if check_embedding_exists st.embedding_log file_hash (some collection_name) then
      if enable_logging then
        (none, { st with skipped_log := st.skipped_log ++
          [{ filename := filename, md5_hash := file_hash,
             skip_reason := "already_embedded", found_in := "log_file",
             collection_name := collection_name }] })
      else (none, st)
    else if has_qdrant_client then
      match check_qdrant_exists scroll st.dedup with
      | (true, d2) =>
        if enable_logging then
          (none, { st with dedup := d2, skipped_log := st.skipped_log ++
            [{ filename := filename, md5_hash := file_hash,
               skip_reason := "already_in_qdrant", found_in := "qdrant_collection",
               collection_name := collection_name }] })
        else (none, { st with dedup := d2 })
      | (false, d2) =>
        coordGenerate has_log_manager enable_logging contentEmbed filename
          file_hash chunks collection_name model_name { st with dedup := d2 }
    else
      coordGenerate has_log_manager enable_logging contentEmbed filename
        file_hash chunks collection_name model_name st
  else
    coordGenerate has_log_manager enable_logging contentEmbed filename
      file_hash chunks collection_name model_name st

/-! ## Pipeline orchestrator (`src/pipeline.py`)

`IngestionPipeline.__init__` constructs the `EmbeddingClient` WITHOUT a
`log_manager` (and with default `enable_deduplication`/`enable_logging`), so
in `process_file` the coordinator runs with `has_log_manager = false`.
`process_file` is one item's run; the only statement that raises inside its
`try` block is the explicit `raise Exception("Failed to download file")` on a
falsy download result — and the `except` handler then reads the local
`file_hash`, which is not yet assigned at that point, so the handler itself
raises `UnboundLocalError`, which propagates out of `process_file`
(`Except.error` in the model).  `IngestionPipeline.run` does not catch it. -/

/-- A `conversion.json` / `upload.json` record. -/
structure LogEntry where
  filename : String
  hash : String
  deriving DecidableEq, Repr

/-- A `failed.json` record, typed (field names are checked by claim C2's
association-list model; here only the values matter). -/
structure FailedEntry where
  filename : String
  hash : String
  error : String
  stage : String
  deriving DecidableEq, Repr

/-- The state an `IngestionPipeline` run reads and writes: the ledgers, the
coordinator state and the two vector-store collections, plus a count of
filename-embedding backend calls. -/
structure PipelineState where
  conversion_log : List LogEntry
  upload_log : List LogEntry
  failed_log : List FailedEntry
  coord : CoordState
  filename_store : PStore FilenamePoint
  content_store : PStore ContentPoint
  filename_embed_calls : Nat
  deriving DecidableEq, Repr

/-- The external collaborators of one pipeline run, as oracles.  Re-running
"with unchanged bytes" is re-running with the same environment. -/
structure PipelineEnv where
  download : String → Option (List Nat)
  hash_file : List Nat → String
  hash_file_lightweight : List Nat → String
  convert : List Nat → Option String
  upload_markdown : String → Bool
  split : String → List String
  hash_text : String → String
  filename_embed : String → Option Vec
  content_embed : String → Option Vec
  uuid5 : String → String
  filename_upsert_ok : Bool
  content_upsert_ok : Nat → Bool
  scroll : ScrollResult
  skip_extensions : List String
  force_reprocess : Bool
  filename_collection : String
  content_collection : String
  content_model : String

/-- `IngestionPipeline.should_skip_file`: extension filter on the basename. -/
def should_skip_file (skip_extensions : List String) (file_key : String) : Bool :=
  skip_extensions.any fun ext => (basename file_key).endsWith ext

/-- `LogManager.is_uploaded`: the hash occurs in the upload ledger. -/
def is_uploaded (upload_log : List LogEntry) (file_hash : String) : Bool :=
  upload_log.any fun e => e.hash == file_hash

/-- `LogManager.add_failed_entry`, on the typed pipeline state. -/
def add_failed (st : PipelineState) (filename file_hash error stage : String) :
    PipelineState :=
  { st with failed_log := st.failed_log ++ [⟨filename, file_hash, error, stage⟩] }

/-- `LogManager.add_conversion_entry`, on the typed pipeline state. -/
def add_conversion (st : PipelineState) (filename file_hash : String) :
    PipelineState :=
  { st with conversion_log := st.conversion_log ++ [⟨filename, file_hash⟩] }

/-- `LogManager.add_upload_entry`, on the typed pipeline state. -/
def add_upload (st : PipelineState) (filename file_hash : String) :
    PipelineState :=
  { st with upload_log := st.upload_log ++ [⟨filename, file_hash⟩] }

/-- One filename-embedding backend invocation
(`generate_filename_embedding` always calls the backend once; its phase-3
logging is inert in the pipeline because no log manager was passed). -/
def count_filename_embed_call (st : PipelineState) : PipelineState :=
  { st with filename_embed_calls := st.filename_embed_calls + 1 }

/-- Steps 8-9 of `process_file` after successful dedup-less embedding:
upload the identity record, then the chunk records, then log success. -/
def process_file_upload_stage (e : PipelineEnv) (filename : String)
    (file_content : List Nat) (file_hash : String) (chunks : List Chunk)
    (fvec : Vec) (content_embeddings : List (Option Vec))
    (st : PipelineState) : Bool × PipelineState :=
  match upload_filename e.uuid5 e.filename_upsert_ok st.filename_store filename
      fvec (e.hash_file_lightweight file_content) with
  | (false, fs2) =>
    (false, add_failed { st with filename_store := fs2 } filename file_hash
      "Filename upload failed" "qdrant")
  | (true, fs2) =>
    match upload_content_chunks e.uuid5 e.content_upsert_ok st.content_store
        filename chunks content_embeddings with
    | (false, cs2) =>
      (false, add_failed { st with filename_store := fs2, content_store := cs2 }
        filename file_hash "Content upload failed" "qdrant")
    | (true, cs2) =>
      (true, add_upload { st with filename_store := fs2, content_store := cs2 }
        filename file_hash)

/-- Step 8 of `process_file`: the coordinator call (no log manager in the
pipeline's client); the `None` sentinel means "skipped by dedup" and is
treated as success with an upload-ledger entry. -/
def process_file_dedup_stage (e : PipelineEnv) (filename : String)
    (file_content : List Nat) (file_hash : String) (chunks : List Chunk)
    (fvec : Vec) (st : PipelineState) : Bool × PipelineState :=
  match generate_batch_embeddings_with_dedup false true true e.content_embed
      true e.scroll filename (e.hash_file_lightweight file_content)
      (chunks.map Chunk.text) e.content_collection e.content_model
      e.force_reprocess st.coord with
  | (none, c2) => (true, add_upload { st with coord := c2 } filename file_hash)
  | (some content_embeddings, c2) =>
    process_file_upload_stage e filename file_content file_hash chunks fvec
      content_embeddings { st with coord := c2 }

/-- Step 7 of `process_file`: filename embedding (a falsy result — `None` or
an empty vector — is a stage failure). -/
def process_file_embed_stage (e : PipelineEnv) (filename : String)
    (file_content : List Nat) (file_hash : String) (chunks : List Chunk)
    (st : PipelineState) : Bool × PipelineState :=
  match e.filename_embed filename with
  | none =>
    (false, add_failed (count_filename_embed_call st) filename file_hash
      "Filename embedding failed" "ollama")
  | some fvec =>
    if fvec.isEmpty then
      (false, add_failed (count_filename_embed_call st) filename file_hash
        "Filename embedding failed" "ollama")
    else
      process_file_dedup_stage e filename file_content file_hash chunks fvec
        (count_filename_embed_call st)

/-- Steps 4-9 of `process_file` (after the already-processed check):
conversion (a falsy result fails the stage), conversion-ledger entry,
markdown storage, chunking, then the embedding stages. -/
def process_file_body (e : PipelineEnv) (file_key filename : String)
    (file_content : List Nat) (file_hash : String) (st : PipelineState) :
    Bool × PipelineState :=
  match e.convert file_content with
  | none => (false, add_failed st filename file_hash "Conversion failed" "docling")
  | some markdown =>
    if markdown.isEmpty then
      (false, add_failed st filename file_hash "Conversion failed" "docling")
    else if !e.upload_markdown file_key then
      (false, add_failed (add_conversion st filename file_hash) filename
        file_hash "Markdown upload failed" "r2")
    else if (chunk_markdown e.split e.hash_text markdown filename).isEmpty then
      (false, add_failed (add_conversion st filename file_hash) filename
        file_hash "Chunking failed" "chunker")
    else
      process_file_embed_stage e filename file_content file_hash
        (chunk_markdown e.split e.hash_text markdown filename)
        (add_conversion st filename file_hash)

/-- `IngestionPipeline.process_file`.  `Except.error` is an exception
escaping `process_file` itself: when the download result is falsy, the
`raise` inside the `try` reaches the handler before `file_hash` was assigned,
and the handler's own `add_failed_entry(filename, file_hash, ...)` raises
`UnboundLocalError`, which nothing catches. -/
def process_file (e : PipelineEnv) (file_key : String) (st : PipelineState) :
    Except Unit (Bool × PipelineState) :=
  if should_skip_file e.skip_extensions file_key then Except.ok (true, st)
  else
    match e.download file_key with
    | none => Except.error ()
    | some file_content =>
      if file_content.isEmpty then Except.error ()
      else if is_uploaded st.upload_log (e.hash_file file_content) then
        Except.ok (true, st)
      else
        Except.ok (process_file_body e file_key (basename file_key)
          file_content (e.hash_file file_content) st)

/-- The per-item loop of `IngestionPipeline.run` (lines 299-305): tally
successes and failures; an exception escaping `process_file` is not caught
anywhere in `run`, so it aborts the whole loop. -/
def run_files (e : PipelineEnv) :
    List String → PipelineState → Nat → Nat →
      Except Unit (Nat × Nat × PipelineState)
  | [], st, processed, failed => Except.ok (processed, failed, st)
  | k :: ks, st, processed, failed =>
    match process_file e k st with
    | Except.error u => Except.error u
    | Except.ok (true, st1) => run_files e ks st1 (processed + 1) failed
    | Except.ok (false, st1) => run_files e ks st1 processed (failed + 1)

end Ingest

namespace Ingest

/-! ## Store and batching lemmas -/

theorem mem_storeIds_upsertPoint {P : Type} (st : PStore P) (p : String × P)
    (a : String) (ha : a ∈ storeIds st) : a ∈ storeIds (upsertPoint st p) := by
  unfold upsertPoint storeIds
  split
  · rcases List.mem_map.mp ha with ⟨q, hq, rfl⟩
    refine List.mem_map.mpr ?_
    by_cases hqe : q.1 = p.1
    · exact ⟨p, List.mem_map.mpr ⟨q, hq, by simp [hqe]⟩, hqe.symm ▸ rfl⟩
    · exact ⟨q, List.mem_map.mpr ⟨q, hq, by simp [hqe]⟩, rfl⟩
  · unfold storeIds at ha
    simp only [List.map_append, List.mem_append]
    exact Or.inl ha

theorem fst_mem_storeIds_upsertPoint {P : Type} (st : PStore P) (p : String × P) :
    p.1 ∈ storeIds (upsertPoint st p) := by
  unfold upsertPoint storeIds
  split
  · next hany =>
    rcases List.any_eq_true.mp hany with ⟨q, hq, hqe⟩
    refine List.mem_map.mpr ⟨p, List.mem_map.mpr ⟨q, hq, ?_⟩, rfl⟩
    simp only [decide_eq_true_eq] at hqe
    simp [hqe]
  · simp

theorem storeIds_upsertPoint_of_mem {P : Type} (st : PStore P) (p : String × P)
    (hp : p.1 ∈ storeIds st) : storeIds (upsertPoint st p) = storeIds st := by
  unfold upsertPoint
  have hany : st.any (fun q => q.1 = p.1) = true := by
    rcases List.mem_map.mp hp with ⟨q, hq, hqe⟩
    exact List.any_eq_true.mpr ⟨q, hq, by simp [hqe]⟩
  rw [if_pos hany]
  unfold storeIds
  rw [List.map_map]
  apply List.map_congr_left
  intro q _
  by_cases hqe : q.1 = p.1 <;> simp [hqe]

theorem storeIds_foldl_upsert_of_mem {P : Type} (pts : PStore P) :
    ∀ st : PStore P, (∀ p ∈ pts, p.1 ∈ storeIds st) →
      storeIds (pts.foldl upsertPoint st) = storeIds st := by
  induction pts with
  | nil => intro st _; rfl
  | cons p rest ih =>
    intro st hmem
    have h1 : storeIds (upsertPoint st p) = storeIds st :=
      storeIds_upsertPoint_of_mem st p (hmem p (List.mem_cons_self p rest))
    rw [List.foldl_cons, ih (upsertPoint st p) ?_, h1]
    intro q hq
    rw [h1]
    exact hmem q (List.mem_cons_of_mem p hq)

theorem mem_storeIds_foldl_upsert {P : Type} (pts : PStore P) :
    ∀ st : PStore P, ∀ a : String,
      (a ∈ storeIds st ∨ ∃ p ∈ pts, p.1 = a) →
      a ∈ storeIds (pts.foldl upsertPoint st) := by
  induction pts with
  | nil =>
    intro st a ha
    rcases ha with h | ⟨p, hp, _⟩
    · exact h
    · exact absurd hp (List.not_mem_nil p)
  | cons p rest ih =>
    intro st a ha
    rw [List.foldl_cons]
    rcases ha with h | ⟨q, hq, hqa⟩
    · exact ih _ a (Or.inl (mem_storeIds_upsertPoint st p a h))
    · rcases List.mem_cons.mp hq with rfl | hq2
      · exact ih _ a (Or.inl (hqa ▸ fst_mem_storeIds_upsertPoint st q))
      · exact ih _ a (Or.inr ⟨q, hq2, hqa⟩)

theorem chunksOfFuel_congr {α : Type} (bs : Nat) :
    ∀ (f1 f2 : Nat) (l : List α), l.length ≤ f1 → l.length ≤ f2 →
      chunksOfFuel bs f1 l = chunksOfFuel bs f2 l := by
  intro f1
  induction f1 with
  | zero =>
    intro f2 l hl _
    have : l = [] := List.eq_nil_of_length_eq_zero (Nat.le_zero.mp hl)
    subst this
    cases f2 <;> rfl
  | succ f1 ih =>
    intro f2 l hl1 hl2
    cases l with
    | nil => cases f2 <;> rfl
    | cons x xs =>
      cases f2 with
      | zero => simp at hl2
      | succ f2 =>
        by_cases hbs : bs = 0
        · simp [chunksOfFuel, hbs]
        · simp only [chunksOfFuel, if_neg hbs]
          rw [ih f2 ((x :: xs).drop bs)
            (by simp only [List.length_drop, List.length_cons] at hl1 ⊢; omega)
            (by simp only [List.length_drop, List.length_cons] at hl2 ⊢; omega)]

theorem chunksOf_nil {α : Type} (bs : Nat) : chunksOf bs ([] : List α) = [] := rfl

theorem chunksOf_cons {α : Type} (bs : Nat) (hbs : bs ≠ 0) (x : α) (xs : List α) :
    chunksOf bs (x :: xs) =
      (x :: xs).take bs :: chunksOf bs ((x :: xs).drop bs) := by
  unfold chunksOf
  simp only [List.length_cons, chunksOfFuel, if_neg hbs]
  rw [chunksOfFuel_congr bs xs.length ((x :: xs).drop bs).length ((x :: xs).drop bs)
    (by simp only [List.length_drop, List.length_cons]; omega) (Nat.le_refl _)]

theorem chunksOf_join_aux {α : Type} (bs : Nat) (hbs : 0 < bs) :
    ∀ (n : Nat) (l : List α), l.length ≤ n → (chunksOf bs l).flatten = l := by
  intro n
  induction n with
  | zero =>
    intro l hl
    have : l = [] := List.eq_nil_of_length_eq_zero (Nat.le_zero.mp hl)
    subst this
    simp [chunksOf_nil]
  | succ n ih =>
    intro l hl
    cases l with
    | nil => simp [chunksOf_nil]
    | cons x xs =>
      rw [chunksOf_cons bs (by omega) x xs, List.flatten_cons,
        ih ((x :: xs).drop bs) (by simp at hl ⊢; omega)]
      exact List.take_append_drop bs (x :: xs)

theorem chunksOf_join {α : Type} (bs : Nat) (hbs : 0 < bs) (l : List α) :
    (chunksOf bs l).flatten = l :=
  chunksOf_join_aux bs hbs l.length l (Nat.le_refl _)

theorem chunksOf_length_aux {α : Type} (bs : Nat) (hbs : 0 < bs) :
    ∀ (n : Nat) (l : List α), l.length ≤ n →
      (chunksOf bs l).length = (l.length + bs - 1) / bs := by
  intro n
  induction n with
  | zero =>
    intro l hl
    have : l = [] := List.eq_nil_of_length_eq_zero (Nat.le_zero.mp hl)
    subst this
    simp only [chunksOf_nil, List.length_nil]
    rw [Nat.div_eq_of_lt (by omega)]
  | succ n ih =>
    intro l hl
    cases l with
    | nil =>
      simp only [chunksOf_nil, List.length_nil]
      rw [Nat.div_eq_of_lt (by omega)]
    | cons x xs =>
      rw [chunksOf_cons bs (by omega) x xs]
      simp only [List.length_cons]
      rw [ih ((x :: xs).drop bs)
        (by rw [List.length_drop]; simp only [List.length_cons] at hl ⊢; omega)]
      simp only [List.length_drop, List.length_cons]
      rcases le_or_lt (xs.length + 1) bs with hle | hlt
      · have h1 : xs.length + 1 - bs = 0 := by omega
        have h2 : xs.length + 1 + bs - 1 = xs.length + bs := by omega
        rw [h1, h2, Nat.add_div_right _ hbs]
        rw [Nat.div_eq_of_lt (by omega), Nat.div_eq_of_lt (by omega)]
      · have h1 : xs.length + 1 - bs + bs - 1 = (xs.length + 1 - bs - 1) + bs := by omega
        have h2 : xs.length + 1 + bs - 1 = (xs.length + 1 - bs - 1) + bs + bs := by omega
        rw [h1, h2, Nat.add_div_right _ hbs, Nat.add_div_right _ hbs,
          Nat.add_div_right _ hbs]

theorem chunksOf_length {α : Type} (bs : Nat) (hbs : 0 < bs) (l : List α) :
    (chunksOf bs l).length = (l.length + bs - 1) / bs :=
  chunksOf_length_aux bs hbs l.length l (Nat.le_refl _)

theorem chunksOf_mem_length_le_aux {α : Type} (bs : Nat) :
    ∀ (n : Nat) (l : List α), l.length ≤ n → ∀ b ∈ chunksOf bs l, b.length ≤ bs := by
  intro n
  induction n with
  | zero =>
    intro l hl b hb
    have : l = [] := List.eq_nil_of_length_eq_zero (Nat.le_zero.mp hl)
    subst this
    rw [chunksOf_nil] at hb
    exact absurd hb (List.not_mem_nil b)
  | succ n ih =>
    intro l hl b hb
    cases l with
    | nil =>
      rw [chunksOf_nil] at hb
      exact absurd hb (List.not_mem_nil b)
    | cons x xs =>
      by_cases hbs : bs = 0
      · subst hbs
        simp [chunksOf, chunksOfFuel] at hb
      · rw [chunksOf_cons bs hbs x xs] at hb
        rcases List.mem_cons.mp hb with rfl | hb2
        · simp only [List.length_take]
          exact Nat.min_le_left bs (xs.length + 1)
        · exact ih ((x :: xs).drop bs) (by simp at hl ⊢; omega) b hb2

theorem chunksOf_mem_length_le {α : Type} (bs : Nat) (l : List α) :
    ∀ b ∈ chunksOf bs l, b.length ≤ bs :=
  chunksOf_mem_length_le_aux bs l.length l (Nat.le_refl _)

theorem upsertBatchesGo_all_ok (upsertOk : Nat → Bool) (batches : List (PStore ContentPoint)) :
    ∀ i st, (∀ j, j < batches.length → upsertOk (i + j) = true) →
      upsertBatchesGo upsertOk i st batches = (true, batches.flatten.foldl upsertPoint st) := by
  induction batches with
  | nil => intro i st _; rfl
  | cons b rest ih =>
    intro i st hok
    have h0 : upsertOk i = true := by simpa using hok 0 (by simp)
    rw [upsertBatchesGo, if_pos h0, List.flatten_cons, List.foldl_append]
    exact ih (i + 1) (b.foldl upsertPoint st) fun j hj => by
      have := hok (j + 1) (by simpa using Nat.succ_lt_succ hj)
      simpa [Nat.add_assoc, Nat.add_comm 1 j] using this

theorem upsertBatchesGo_some_fail (upsertOk : Nat → Bool) (batches : List (PStore ContentPoint)) :
    ∀ i st, (∃ j, j < batches.length ∧ upsertOk (i + j) = false) →
      (upsertBatchesGo upsertOk i st batches).1 = false := by
  induction batches with
  | nil =>
    intro i st ⟨j, hj, _⟩
    exact absurd hj (by simp)
  | cons b rest ih =>
    intro i st ⟨j, hj, hfail⟩
    rw [upsertBatchesGo]
    by_cases h0 : upsertOk i = true
    · rw [if_pos h0]
      rcases Nat.eq_zero_or_pos j with rfl | hjpos
      · rw [Nat.add_zero] at hfail
        rw [h0] at hfail
        exact absurd hfail (by simp)
      · refine ih (i + 1) _ ⟨j - 1, by simp at hj; omega, ?_⟩
        have : i + 1 + (j - 1) = i + j := by omega
        rw [this]
        exact hfail
    · rw [if_neg h0]

theorem contentPoints_length_all_some (uuid5 : String → String) (fn : String) :
    ∀ (chunks : List Chunk) (embs : List (Option Vec)),
      chunks.length = embs.length → (∀ e ∈ embs, e ≠ none) →
      (contentPoints uuid5 fn chunks embs).length = chunks.length := by
  intro chunks
  induction chunks with
  | nil => intro embs _ _; cases embs <;> rfl
  | cons c cs ih =>
    intro embs hlen hsome
    cases embs with
    | nil => simp at hlen
    | cons e es =>
      cases e with
      | none => exact absurd rfl (hsome none (List.mem_cons_self _ _))
      | some v =>
        simp only [contentPoints, List.length_cons]
        rw [ih es (by simpa using hlen) fun x hx => hsome x (List.mem_cons_of_mem _ hx)]

theorem contentPoints_ids_eq (uuid5 : String → String) (fn : String) :
    ∀ (c1 : List Chunk) (c2 : List Chunk) (e1 e2 : List (Option Vec)),
      c1.length = e1.length → c2.length = e2.length →
      (∀ e ∈ e1, e ≠ none) → (∀ e ∈ e2, e ≠ none) →
      c2.map Chunk.chunk_number = c1.map Chunk.chunk_number →
      (contentPoints uuid5 fn c2 e2).map Prod.fst =
        (contentPoints uuid5 fn c1 e1).map Prod.fst := by
  intro c1
  induction c1 with
  | nil =>
    intro c2 e1 e2 _ hl2 _ _ hnum
    have hc2 : c2 = [] := by
      have := congrArg List.length hnum
      simpa using this
    subst hc2
    have he2 : e2 = [] := by
      cases e2 with
      | nil => rfl
      | cons _ _ => simp at hl2
    subst he2
    cases e1 <;> rfl
  | cons c cs ih =>
    intro c2 e1 e2 hl1 hl2 hs1 hs2 hnum
    cases c2 with
    | nil => simp at hnum
    | cons d ds =>
      cases e1 with
      | nil => simp at hl1
      | cons x xs =>
        cases e2 with
        | nil => simp at hl2
        | cons y ys =>
          cases x with
          | none => exact absurd rfl (hs1 none (List.mem_cons_self _ _))
          | some v =>
            cases y with
            | none => exact absurd rfl (hs2 none (List.mem_cons_self _ _))
            | some w =>
              simp only [List.map_cons, List.cons.injEq] at hnum
              simp only [contentPoints, List.map_cons, List.cons.injEq]
              exact ⟨by rw [hnum.1],
                ih ds xs ys (by simpa using hl1) (by simpa using hl2)
                  (fun e he => hs1 e (List.mem_cons_of_mem _ he))
                  (fun e he => hs2 e (List.mem_cons_of_mem _ he)) hnum.2⟩

theorem upload_content_chunks_eq_of_all_ok (uuid5 : String → String)
    (ok : Nat → Bool) (st : PStore ContentPoint) (fn : String)
    (chunks : List Chunk) (embs : List (Option Vec))
    (hlen : chunks.length = embs.length)
    (hne : contentPoints uuid5 fn chunks embs ≠ [])
    (hok : ∀ j, j < (chunksOf 100 (contentPoints uuid5 fn chunks embs)).length →
      ok j = true) :
    upload_content_chunks uuid5 ok st fn chunks embs =
      (true, (contentPoints uuid5 fn chunks embs).foldl upsertPoint st) := by
  unfold upload_content_chunks
  rw [if_neg (by omega)]
  simp only [List.isEmpty_iff]
  rw [if_neg hne]
  rw [upsertBatchesGo_all_ok ok _ 0 st (fun j hj => by simpa using hok j hj),
    chunksOf_join 100 (by omega)]

theorem upload_content_chunks_fst_false_of_fail (uuid5 : String → String)
    (ok : Nat → Bool) (st : PStore ContentPoint) (fn : String)
    (chunks : List Chunk) (embs : List (Option Vec))
    (hlen : chunks.length = embs.length)
    (hne : contentPoints uuid5 fn chunks embs ≠ [])
    (hfail : ∃ j, j < (chunksOf 100 (contentPoints uuid5 fn chunks embs)).length ∧
      ok j = false) :
    (upload_content_chunks uuid5 ok st fn chunks embs).1 = false := by
  unfold upload_content_chunks
  rw [if_neg (by omega)]
  simp only [List.isEmpty_iff]
  rw [if_neg hne]
  obtain ⟨j, hj, hjf⟩ := hfail
  exact upsertBatchesGo_some_fail ok _ 0 st ⟨j, hj, by simpa using hjf⟩

/-! ## Theorems: vector store writer -/

/-- C5: the vector-record identifier is a deterministic function of the
filename (identity records) and of the filename together with the chunk
sequence number (chunk records): two uploads covering the same logical units
compute the identical point ids, so the second upload overwrites in place and
adds no new record (the id set of both collections is unchanged). -/
theorem deterministic_ids_overwrite (uuid5 : String → String)
    (fst0 : PStore FilenamePoint) (cst0 : PStore ContentPoint)
    (fn : String) (v1 v2 : Vec) (h1 h2 : String)
    (chunks1 chunks2 : List Chunk) (embs1 embs2 : List (Option Vec))
    (ok1 ok2 : Nat → Bool)
    (hl1 : chunks1.length = embs1.length) (hl2 : chunks2.length = embs2.length)
    (hs1 : ∀ e ∈ embs1, e ≠ none) (hs2 : ∀ e ∈ embs2, e ≠ none)
    (hnum : chunks2.map Chunk.chunk_number = chunks1.map Chunk.chunk_number)
    (hok1 : ∀ j, ok1 j = true) (hok2 : ∀ j, ok2 j = true) :
    storeIds (upload_filename uuid5 true
        (upload_filename uuid5 true fst0 fn v1 h1).2 fn v2 h2).2 =
      storeIds (upload_filename uuid5 true fst0 fn v1 h1).2 ∧
    (contentPoints uuid5 fn chunks2 embs2).map Prod.fst =
      (contentPoints uuid5 fn chunks1 embs1).map Prod.fst ∧
    storeIds (upload_content_chunks uuid5 ok2
        (upload_content_chunks uuid5 ok1 cst0 fn chunks1 embs1).2 fn chunks2 embs2).2 =
      storeIds (upload_content_chunks uuid5 ok1 cst0 fn chunks1 embs1).2 := by
  have hids := contentPoints_ids_eq uuid5 fn chunks1 chunks2 embs1 embs2 hl1 hl2 hs1 hs2 hnum
  refine ⟨?_, hids, ?_⟩
  · simp only [upload_filename, if_pos]
    apply storeIds_upsertPoint_of_mem
    exact fst_mem_storeIds_upsertPoint fst0 _
  · by_cases hne1 : contentPoints uuid5 fn chunks1 embs1 = []
    · have hne2 : contentPoints uuid5 fn chunks2 embs2 = [] := by
        have := hids
        rw [hne1] at this
        simpa using this
      unfold upload_content_chunks
      rw [if_neg (by omega)]
      simp only [List.isEmpty_iff]
      rw [if_pos hne2]
    · have heq1 := upload_content_chunks_eq_of_all_ok uuid5 ok1 cst0 fn chunks1 embs1
        hl1 hne1 (fun j _ => hok1 j)
      by_cases hne2 : contentPoints uuid5 fn chunks2 embs2 = []
      · unfold upload_content_chunks
        rw [if_neg (by omega)]
        simp only [List.isEmpty_iff]
        rw [if_pos hne2]
      · have heq2 := upload_content_chunks_eq_of_all_ok uuid5 ok2
          (upload_content_chunks uuid5 ok1 cst0 fn chunks1 embs1).2 fn chunks2 embs2
          hl2 hne2 (fun j _ => hok2 j)
        rw [heq2, heq1]
        apply storeIds_foldl_upsert_of_mem
        intro p hp
        have hmap : p.1 ∈ (contentPoints uuid5 fn chunks2 embs2).map Prod.fst :=
          List.mem_map.mpr ⟨p, hp, rfl⟩
        rw [hids] at hmap
        rcases List.mem_map.mp hmap with ⟨q, hq, hqe⟩
        exact hqe ▸ mem_storeIds_foldl_upsert _ cst0 q.1 (Or.inr ⟨q, hq, rfl⟩)

/-- C5 witness: concrete double upload with renamed chunk texts but identical
sequence numbers leaves the id sets of both collections unchanged. -/
theorem deterministic_ids_overwrite_witness :
    storeIds (upload_filename id true
        (upload_filename id true [] "a.pdf" [1] "x").2 "a.pdf" [2] "y").2 =
      storeIds (upload_filename id true [] "a.pdf" [1] "x").2 ∧
    (contentPoints id "a.pdf" [⟨"new text", "a.pdf", 1, "Text", "h2"⟩] [some [2]]).map
        Prod.fst =
      (contentPoints id "a.pdf" [⟨"old text", "a.pdf", 1, "Text", "h1"⟩] [some [1]]).map
        Prod.fst ∧
    storeIds (upload_content_chunks id (fun _ => true)
        (upload_content_chunks id (fun _ => true) [] "a.pdf"
          [⟨"old text", "a.pdf", 1, "Text", "h1"⟩] [some [1]]).2 "a.pdf"
        [⟨"new text", "a.pdf", 1, "Text", "h2"⟩] [some [2]]).2 =
      storeIds (upload_content_chunks id (fun _ => true) [] "a.pdf"
        [⟨"old text", "a.pdf", 1, "Text", "h1"⟩] [some [1]]).2 :=
  deterministic_ids_overwrite id [] [] "a.pdf" [1] [2] "x" "y"
    [⟨"old text", "a.pdf", 1, "Text", "h1"⟩] [⟨"new text", "a.pdf", 1, "Text", "h2"⟩]
    [some [1]] [some [2]] (fun _ => true) (fun _ => true)
    (by decide) (by decide) (by decide) (by decide) (by decide)
    (fun _ => rfl) (fun _ => rfl)

/-- C6: with equal-length chunk and vector lists, `upload_content_chunks`
builds exactly one record per chunk, batches them at a bounded size (100), and
the whole call succeeds exactly when every batch upsert succeeds: if every
batch succeeds every record id is present in the store and the call returns
success, and if any batch fails the call reports failure for the whole item
(even though earlier batches were written). -/
theorem upload_content_chunks_one_record_per_chunk (uuid5 : String → String)
    (ok : Nat → Bool) (st : PStore ContentPoint) (fn : String)
    (chunks : List Chunk) (embs : List (Option Vec))
    (hlen : chunks.length = embs.length) (hsome : ∀ e ∈ embs, e ≠ none)
    (hne : chunks ≠ []) :
    (contentPoints uuid5 fn chunks embs).length = chunks.length ∧
    (∀ b ∈ chunksOf 100 (contentPoints uuid5 fn chunks embs), b.length ≤ 100) ∧
    ((∀ j, j < (chunksOf 100 (contentPoints uuid5 fn chunks embs)).length →
        ok j = true) →
      (upload_content_chunks uuid5 ok st fn chunks embs).1 = true ∧
      ∀ p ∈ contentPoints uuid5 fn chunks embs,
        p.1 ∈ storeIds (upload_content_chunks uuid5 ok st fn chunks embs).2) ∧
    ((∃ j, j < (chunksOf 100 (contentPoints uuid5 fn chunks embs)).length ∧
        ok j = false) →
      (upload_content_chunks uuid5 ok st fn chunks embs).1 = false) := by
  have hplen := contentPoints_length_all_some uuid5 fn chunks embs hlen hsome
  have hpne : contentPoints uuid5 fn chunks embs ≠ [] := by
    intro h
    have := congrArg List.length h
    rw [hplen] at this
    exact hne (List.eq_nil_of_length_eq_zero this)
  refine ⟨hplen, chunksOf_mem_length_le 100 _, ?_, ?_⟩
  · intro hok
    rw [upload_content_chunks_eq_of_all_ok uuid5 ok st fn chunks embs hlen hpne hok]
    exact ⟨rfl, fun p hp => mem_storeIds_foldl_upsert _ st p.1 (Or.inr ⟨p, hp, rfl⟩)⟩
  · intro hfail
    exact upload_content_chunks_fst_false_of_fail uuid5 ok st fn chunks embs hlen
      hpne hfail

/-- C6 witness: a concrete one-chunk upload succeeds when the batch call
succeeds, and the same upload reports whole-item failure when the batch call
fails. -/
theorem upload_content_chunks_one_record_per_chunk_witness :
    ((contentPoints id "n.pdf" [⟨"t", "n.pdf", 1, "Text", "h"⟩] [some [3]]).length = 1 ∧
      (upload_content_chunks id (fun _ => true) [] "n.pdf"
        [⟨"t", "n.pdf", 1, "Text", "h"⟩] [some [3]]).1 = true) ∧
    (upload_content_chunks id (fun _ => false) [] "n.pdf"
      [⟨"t", "n.pdf", 1, "Text", "h"⟩] [some [3]]).1 = false := by
  have hT := upload_content_chunks_one_record_per_chunk id (fun _ => true) []
    "n.pdf" [⟨"t", "n.pdf", 1, "Text", "h"⟩] [some [3]]
    (by decide) (by decide) (by decide)
  have hF := upload_content_chunks_one_record_per_chunk id (fun _ => false) []
    "n.pdf" [⟨"t", "n.pdf", 1, "Text", "h"⟩] [some [3]]
    (by decide) (by decide) (by decide)
  exact ⟨⟨hT.1, (hT.2.2.1 (fun _ _ => rfl)).1⟩, hF.2.2.2 ⟨0, by decide, rfl⟩⟩

/-! ## Theorems: chunker -/

/-- C8: element-type classification applies the priority order
table → image → code → list → default text, first match winning; in
particular any chunk with both table syntax and image syntax is a table. -/
theorem detect_element_type_priority (s : List Char) :
    (hasTableMark s = true → detect_element_type s = "Table") ∧
    (hasTableMark s = false → hasImageRef s = true → detect_element_type s = "Image") ∧
    (hasTableMark s = false → hasImageRef s = false → hasCodeMark s = true →
      detect_element_type s = "Code") ∧
    (hasTableMark s = false → hasImageRef s = false → hasCodeMark s = false →
      hasListMark s = true → detect_element_type s = "List") ∧
    (hasTableMark s = false → hasImageRef s = false → hasCodeMark s = false →
      hasListMark s = false → detect_element_type s = "Text") ∧
    (hasTableMark s = true → hasImageRef s = true → detect_element_type s = "Table") := by
  unfold detect_element_type
  refine ⟨?_, ?_, ?_, ?_, ?_, ?_⟩ <;> intros <;> simp_all

/-- C8 witness: a concrete chunk carrying both a markdown table and a markdown
image is classified `Table`. -/
theorem detect_element_type_priority_witness :
    hasTableMark "| a | b |\n|---|---|\n![logo](img.png)".data = true ∧
    hasImageRef "| a | b |\n|---|---|\n![logo](img.png)".data = true ∧
    detect_element_type "| a | b |\n|---|---|\n![logo](img.png)".data = "Table" :=
  ⟨by decide, by decide,
    (detect_element_type_priority "| a | b |\n|---|---|\n![logo](img.png)".data).1
      (by decide)⟩

/-- C9: `chunk_markdown` tags the pieces produced by the splitter with the
sequence numbers 1, 2, …, n, contiguous and in production order: the list of
sequence numbers is exactly `[1, …, n]`, and the i-th chunk carries the i-th
piece of the split. -/
theorem chunk_markdown_seq_numbers (split : String → List String)
    (hashText : String → String) (md fn : String) :
    (chunk_markdown split hashText md fn).map Chunk.chunk_number =
      List.range' 1 (split md).length ∧
    (chunk_markdown split hashText md fn).map Chunk.text = split md := by
  constructor
  · have h1 : (chunk_markdown split hashText md fn).map Chunk.chunk_number =
        ((split md).enum.map Prod.fst).map (· + 1) := by
      unfold chunk_markdown
      rw [List.map_map, List.map_map]
      rfl
    rw [h1, List.enum_map_fst, List.range'_eq_map_range]
    simp [Nat.add_comm]
  · have h2 : (chunk_markdown split hashText md fn).map Chunk.text =
        (split md).enum.map Prod.snd := by
      unfold chunk_markdown
      rw [List.map_map]
      rfl
    rw [h2, List.enum_map_snd]


/-! ## Theorems: embedding backends -/

theorem ollamaBatchStep_length {α : Type} (bc : List String → Except Unit (List α))
    (sc : String → Except Unit α) (b : List String) :
    (ollamaBatchStep bc sc b).1.length = b.length := by
  unfold ollamaBatchStep
  cases bc b with
  | ok embs =>
    by_cases h : embs.length = b.length
    · simp [h]
    · simp [h]
  | error e => simp

theorem ollamaLoop_embeddings {α : Type} (bc : List String → Except Unit (List α))
    (sc : String → Except Unit α) (batches : List (List String)) :
    (ollamaLoop bc sc batches).embeddings =
      ((batches.map fun b => (ollamaBatchStep bc sc b).1).flatten) := by
  induction batches with
  | nil => rfl
  | cons b rest ih => simp [ollamaLoop, ih]

theorem ollamaLoop_embeddings_length {α : Type}
    (bc : List String → Except Unit (List α)) (sc : String → Except Unit α)
    (batches : List (List String)) :
    (ollamaLoop bc sc batches).embeddings.length = batches.flatten.length := by
  induction batches with
  | nil => rfl
  | cons b rest ih =>
    simp only [ollamaLoop, List.flatten_cons, List.length_append, ih,
      ollamaBatchStep_length]

theorem ollamaLoop_all_ok {α : Type} (bc : List String → Except Unit (List α))
    (sc : String → Except Unit α) (batches : List (List String))
    (hok : ∀ b ∈ batches, geminiBatchOk bc b = true) :
    (ollamaLoop bc sc batches).batchCalls = batches.length ∧
    (ollamaLoop bc sc batches).singleCalls = 0 := by
  induction batches with
  | nil => exact ⟨rfl, rfl⟩
  | cons b rest ih =>
    have hb := hok b (List.mem_cons_self b rest)
    have hrest := ih fun b2 hb2 => hok b2 (List.mem_cons_of_mem b hb2)
    unfold geminiBatchOk at hb
    simp only [ollamaLoop, List.length_cons]
    unfold ollamaBatchStep
    cases hcall : bc b with
    | ok embs =>
      rw [hcall] at hb
      have hlen : embs.length = b.length := by
        by_cases h : embs.length = b.length
        · exact h
        · simp [h] at hb
      simp [hlen, hrest.1, hrest.2]
    | error e => rw [hcall] at hb; simp at hb

theorem geminiLoop_success_length {α : Type}
    (bc : List String → Except Unit (List α)) (batches : List (List String)) :
    ∀ embs calls, geminiLoop bc batches = GeminiLoopResult.success embs calls →
      embs.length = batches.flatten.length := by
  induction batches with
  | nil =>
    intro embs calls h
    simp only [geminiLoop] at h
    cases h
    rfl
  | cons b rest ih =>
    intro embs calls h
    simp only [geminiLoop] at h
    cases hcall : bc b with
    | ok e0 =>
      rw [hcall] at h
      dsimp only at h
      by_cases hcond : (e0.isEmpty || e0.length != b.length) = true
      · rw [if_pos hcond] at h
        cases h
      · rw [if_neg hcond] at h
        simp only [Bool.or_eq_true, not_or, Bool.not_eq_true] at hcond
        have hlen : e0.length = b.length := by
          have := hcond.2
          simpa using this
        cases hrec : geminiLoop bc rest with
        | success more calls2 =>
          rw [hrec] at h
          cases h
          simp [List.flatten_cons, hlen, ih more calls2 hrec]
        | failure calls2 =>
          rw [hrec] at h
          cases h
    | error e =>
      rw [hcall] at h
      dsimp only at h
      cases h

theorem geminiLoop_all_ok {α : Type} (bc : List String → Except Unit (List α))
    (batches : List (List String))
    (hok : ∀ b ∈ batches, geminiBatchOk bc b = true) :
    ∃ embs, geminiLoop bc batches = GeminiLoopResult.success embs batches.length := by
  induction batches with
  | nil => exact ⟨[], rfl⟩
  | cons b rest ih =>
    have hb := hok b (List.mem_cons_self b rest)
    obtain ⟨more, hrec⟩ := ih fun b2 hb2 => hok b2 (List.mem_cons_of_mem b hb2)
    unfold geminiBatchOk at hb
    cases hcall : bc b with
    | ok e0 =>
      rw [hcall] at hb
      dsimp only at hb
      have hcond : (e0.isEmpty || e0.length != b.length) = false := by
        simpa using hb
      refine ⟨e0 ++ more, ?_⟩
      simp only [geminiLoop, hcall, hcond, Bool.false_eq_true, if_false, hrec,
        List.length_cons]
    | error e => rw [hcall] at hb; dsimp only at hb; simp at hb

theorem geminiLoop_some_fail {α : Type} (bc : List String → Except Unit (List α))
    (batches : List (List String))
    (hfail : ∃ b ∈ batches, geminiBatchOk bc b = false) :
    ∃ calls, geminiLoop bc batches = GeminiLoopResult.failure calls := by
  induction batches with
  | nil =>
    obtain ⟨b, hb, _⟩ := hfail
    exact absurd hb (List.not_mem_nil b)
  | cons b rest ih =>
    by_cases hb : geminiBatchOk bc b = true
    · obtain ⟨b2, hb2, hb2f⟩ := hfail
      rcases List.mem_cons.mp hb2 with rfl | hb2r
      · rw [hb] at hb2f
        simp at hb2f
      · obtain ⟨calls, hrec⟩ := ih ⟨b2, hb2r, hb2f⟩
        unfold geminiBatchOk at hb
        cases hcall : bc b with
        | ok e0 =>
          rw [hcall] at hb
          dsimp only at hb
          have hcond : (e0.isEmpty || e0.length != b.length) = false := by
            simpa using hb
          refine ⟨calls + 1, ?_⟩
          simp only [geminiLoop, hcall, hcond, Bool.false_eq_true, if_false, hrec]
        | error e => rw [hcall] at hb; dsimp only at hb; simp at hb
    · rw [Bool.not_eq_true] at hb
      unfold geminiBatchOk at hb
      cases hcall : bc b with
      | ok e0 =>
        rw [hcall] at hb
        dsimp only at hb
        have hcond : (e0.isEmpty || e0.length != b.length) = true := by
          by_cases h : (e0.isEmpty || e0.length != b.length) = true
          · exact h
          · rw [Bool.not_eq_true] at h
            rw [h] at hb
            simp at hb
        exact ⟨1, by simp only [geminiLoop, hcall, hcond, if_true]⟩
      | error e => exact ⟨1, by simp only [geminiLoop, hcall]⟩


/-- C4 counterexample: with batch size 1 and texts `["a", "b"]`, the batch
call for `["a"]` succeeds with vector `1` and the one for `["b"]` raises;
the single-text call fails on `"a"` and returns `2` on `"b"`.  The claimed
per-batch fallback would keep batch 1's result and retry only batch 2,
yielding `[some 1, some 2]` with exactly one single-text call — the Ollama
backend does exactly that, but the Gemini backend discards batch 1's result
and re-embeds the whole input sequentially, returning `[none, some 2]` with
two single-text calls.  So the claim is false of `GeminiBackend`. -/
theorem gemini_per_batch_fallback_counterexample :
    (gemini_generate_batch_embeddings
        (fun l => if l = ["a"] then Except.ok [1] else Except.error ())
        (fun t => if t = "b" then Except.ok 2 else Except.error ())
        1 ["a", "b"]).embeddings = [none, some 2] ∧
    (gemini_generate_batch_embeddings
        (fun l => if l = ["a"] then Except.ok [1] else Except.error ())
        (fun t => if t = "b" then Except.ok 2 else Except.error ())
        1 ["a", "b"]).singleCalls = 2 ∧
    (ollama_generate_batch_embeddings
        (fun l => if l = ["a"] then Except.ok [1] else Except.error ())
        (fun t => if t = "b" then Except.ok 2 else Except.error ())
        1 ["a", "b"]).embeddings = [some 1, some 2] ∧
    (ollama_generate_batch_embeddings
        (fun l => if l = ["a"] then Except.ok [1] else Except.error ())
        (fun t => if t = "b" then Except.ok 2 else Except.error ())
        1 ["a", "b"]).singleCalls = 1 ∧
    [none, some 2] ≠ [some 1, some (2 : Nat)] := by
  refine ⟨?_, ?_, ?_, ?_, by decide⟩ <;> decide

/-- C4 amended: in both backends `generate_batch_embeddings` returns exactly
one result per input text, in input order, and issues exactly
`ceil(n / batch_size)` batch calls and no single-text calls when no batch
call fails.  On a batch failure the backends differ: the Ollama backend falls
back to sequential per-text calls for that batch only (its output is the
per-batch concatenation of batch results and per-batch fallbacks, with `none`
for an individual failure), while the Gemini backend falls back to sequential
per-text calls over the entire input, discarding the results of earlier
successful batches, still returning exactly one result per text. -/
theorem generate_batch_embeddings_amended {α : Type}
    (bc : List String → Except Unit (List α)) (sc : String → Except Unit α)
    (bs : Nat) (texts : List String) (hbs : 0 < bs) :
    ((ollama_generate_batch_embeddings bc sc bs texts).embeddings.length =
        texts.length ∧
      (gemini_generate_batch_embeddings bc sc bs texts).embeddings.length =
        texts.length) ∧
    ((∀ b ∈ chunksOf bs texts, geminiBatchOk bc b = true) →
      ((ollama_generate_batch_embeddings bc sc bs texts).batchCalls =
          (texts.length + bs - 1) / bs ∧
        (ollama_generate_batch_embeddings bc sc bs texts).singleCalls = 0) ∧
      ((gemini_generate_batch_embeddings bc sc bs texts).batchCalls =
          (texts.length + bs - 1) / bs ∧
        (gemini_generate_batch_embeddings bc sc bs texts).singleCalls = 0)) ∧
    ((ollama_generate_batch_embeddings bc sc bs texts).embeddings =
      ((chunksOf bs texts).map fun b => (ollamaBatchStep bc sc b).1).flatten) ∧
    ((∃ b ∈ chunksOf bs texts, geminiBatchOk bc b = false) →
      (gemini_generate_batch_embeddings bc sc bs texts).embeddings =
        (texts.map fun t => (sc t).toOption) ∧
      (gemini_generate_batch_embeddings bc sc bs texts).singleCalls =
        texts.length) := by
  refine ⟨⟨?_, ?_⟩, ?_, ?_, ?_⟩
  · unfold ollama_generate_batch_embeddings
    rw [ollamaLoop_embeddings_length, chunksOf_join bs hbs]
  · unfold gemini_generate_batch_embeddings
    cases hrec : geminiLoop bc (chunksOf bs texts) with
    | success embs calls =>
      have := geminiLoop_success_length bc (chunksOf bs texts) embs calls hrec
      rw [chunksOf_join bs hbs] at this
      simpa using this
    | failure calls => simp
  · intro hok
    have ho := ollamaLoop_all_ok bc sc (chunksOf bs texts) hok
    obtain ⟨embs, hg⟩ := geminiLoop_all_ok bc (chunksOf bs texts) hok
    refine ⟨⟨?_, ho.2⟩, ?_, ?_⟩
    · unfold ollama_generate_batch_embeddings
      rw [ho.1, chunksOf_length bs hbs]
    · unfold gemini_generate_batch_embeddings
      rw [hg]
      simp [chunksOf_length bs hbs]
    · unfold gemini_generate_batch_embeddings
      rw [hg]
  · unfold ollama_generate_batch_embeddings
    exact ollamaLoop_embeddings bc sc (chunksOf bs texts)
  · intro hfail
    obtain ⟨calls, hrec⟩ := geminiLoop_some_fail bc (chunksOf bs texts) hfail
    unfold gemini_generate_batch_embeddings
    rw [hrec]
    exact ⟨rfl, rfl⟩

/-- C4 amended witness: three texts with batch size 2, every batch call
succeeding: both backends return 3 vectors in order with 2 batch calls
(ceil(3/2)) and no single-text calls. -/
theorem generate_batch_embeddings_amended_witness :
    ((ollama_generate_batch_embeddings
        (fun l => Except.ok (l.map fun _ => (0 : Nat)))
        (fun _ => Except.error ()) 2 ["a", "b", "c"]).embeddings.length = 3 ∧
      (gemini_generate_batch_embeddings
        (fun l => Except.ok (l.map fun _ => (0 : Nat)))
        (fun _ => Except.error ()) 2 ["a", "b", "c"]).embeddings.length = 3) ∧
    (ollama_generate_batch_embeddings
        (fun l => Except.ok (l.map fun _ => (0 : Nat)))
        (fun _ => Except.error ()) 2 ["a", "b", "c"]).batchCalls = 2 ∧
    (gemini_generate_batch_embeddings
        (fun l => Except.ok (l.map fun _ => (0 : Nat)))
        (fun _ => Except.error ()) 2 ["a", "b", "c"]).batchCalls = 2 := by
  have h := generate_batch_embeddings_amended
    (fun l => Except.ok (l.map fun _ => (0 : Nat)))
    (fun _ => Except.error ()) 2 ["a", "b", "c"] (by decide)
  have hok := h.2.1 (by decide)
  exact ⟨⟨by simpa using h.1.1, by simpa using h.1.2⟩,
    by rw [hok.1.1]; decide, by rw [hok.2.1]; decide⟩


/-! ## Theorems: failure ledger and retry removal (C2) -/

/-- C2: the claim is FALSE of the code, and the code contradicts its own
documentation (the retry script's docstring step 4: "Removes successfully
processed files from failed.json").  `LogManager.add_failed_entry` writes the
ledger fields `filename`/`hash`/`error`/`stage`, but `FailedFileRetry.run`
reads `failed_entry.get('file_hash', '')` (always `""`) and
`remove_from_failed_log` filters on `f.get('file_hash') != file_hash` — a key
that no ledger entry has — so after a successful reprocess the entry remains
in `failed.json`.  This theorem evaluates the code at the failing input. -/
theorem retry_never_removes_failed_entry :
    retry_entry_file_hash
      [("filename", "a.pdf"), ("hash", "h1"), ("datetime", "t0"),
       ("error", "network error"), ("stage", "ollama")] = "" ∧
    remove_from_failed_log
        (add_failed_entry [] "a.pdf" "h1" "t0" "network error" "ollama")
        (retry_entry_file_hash
          [("filename", "a.pdf"), ("hash", "h1"), ("datetime", "t0"),
           ("error", "network error"), ("stage", "ollama")]) =
      add_failed_entry [] "a.pdf" "h1" "t0" "network error" "ollama" ∧
    (add_failed_entry [] "a.pdf" "h1" "t0" "network error" "ollama").length = 1 := by
  refine ⟨by decide, ?_, by decide⟩
  decide

/-! ## Theorems: degraded-capability existence check (C7) -/

theorem check_qdrant_warning_invariant (sc : ScrollResult) (s : DedupCheckState)
    (hs : s.warnings_emitted ≤ if s.index_warning_shown then 1 else 0) :
    (check_qdrant_exists sc s).2.warnings_emitted ≤
      if (check_qdrant_exists sc s).2.index_warning_shown then 1 else 0 := by
  unfold check_qdrant_exists
  cases sc with
  | ok results => exact hs
  | error msg =>
    dsimp only
    by_cases hcond : (containsSubL "Index required but not found".data msg.data &&
        containsSubL "metadata.md5_hash".data msg.data) = true
    · rw [if_pos hcond]
      by_cases hshown : s.index_warning_shown
      · rw [if_pos hshown]
        exact hs
      · rw [if_neg hshown]
        simp only
        rw [Bool.not_eq_true] at hshown
        rw [hshown] at hs
        simp at hs
        simp [hs]
    · rw [if_neg hcond]
      exact hs

theorem run_qdrant_checks_invariant (scrolls : List ScrollResult) :
    ∀ s : DedupCheckState,
      s.warnings_emitted ≤ (if s.index_warning_shown then 1 else 0) →
      (run_qdrant_checks scrolls s).warnings_emitted ≤
        (if (run_qdrant_checks scrolls s).index_warning_shown then 1 else 0) := by
  induction scrolls with
  | nil => intro s hs; exact hs
  | cons sc rest ih =>
    intro s hs
    exact ih (check_qdrant_exists sc s).2 (check_qdrant_warning_invariant sc s hs)

/-- C7: when the existence check's scroll call raises the missing-payload-index
error, the item is treated as not found (`false`, never a raised exception),
the warning is emitted at most once per run (the `_index_warning_shown` flag),
and the coordinator carries on in ledger-only dedup mode: with the embedding
ledger missing the hash, the erroring store check still lets the coordinator
proceed to generate embeddings instead of failing. -/
theorem check_qdrant_exists_missing_index_degrades (msg : String)
    (st : DedupCheckState) (scrolls : List ScrollResult)
    (cE : String → Option Vec) (fn fh coll model : String)
    (chunks : List String) (elog : List EmbedEntry) (slog : List SkipEntry)
    (bc : Nat)
    (hmsg : (containsSubL "Index required but not found".data msg.data &&
        containsSubL "metadata.md5_hash".data msg.data) = true)
    (hmiss : check_embedding_exists elog fh (some coll) = false) :
    (check_qdrant_exists (Except.error msg) st).1 = false ∧
    (run_qdrant_checks scrolls ⟨false, 0⟩).warnings_emitted ≤ 1 ∧
    (generate_batch_embeddings_with_dedup true true true cE true
        (Except.error msg) fn fh chunks coll model false
        ⟨elog, slog, st, bc⟩).1 = some (chunks.map cE) := by
  have hfst : (check_qdrant_exists (Except.error msg) st).1 = false := by
    unfold check_qdrant_exists
    dsimp only
    rw [if_pos hmsg]
    by_cases hshown : st.index_warning_shown <;> simp [hshown]
  refine ⟨hfst, ?_, ?_⟩
  · have := run_qdrant_checks_invariant scrolls ⟨false, 0⟩ (by simp)
    rcases hsh : (run_qdrant_checks scrolls ⟨false, 0⟩).index_warning_shown <;>
      rw [hsh] at this <;> simp at this <;> simp [this]
  · rcases hqe : check_qdrant_exists (Except.error msg) st with ⟨b, d2⟩
    have hb : b = false := by rw [← hfst, hqe]
    subst hb
    unfold generate_batch_embeddings_with_dedup coordGenerate
    simp [hmiss, hqe]

/-- C7 witness: a concrete missing-index error message, two consecutive runs
of the check (the warning fires once), and a concrete coordinator call that
proceeds to generate. -/
theorem check_qdrant_exists_missing_index_degrades_witness :
    (check_qdrant_exists
      (Except.error "Index required but not found: metadata.md5_hash")
      ⟨false, 0⟩).1 = false ∧
    (run_qdrant_checks
      [Except.error "Index required but not found: metadata.md5_hash",
       Except.error "Index required but not found: metadata.md5_hash"]
      ⟨false, 0⟩).warnings_emitted ≤ 1 ∧
    (generate_batch_embeddings_with_dedup true true true (fun _ => some [7]) true
        (Except.error "Index required but not found: metadata.md5_hash")
        "a.pdf" "xxh" ["chunk one"] "content" "bge-m3" false
        ⟨[], [], ⟨false, 0⟩, 0⟩).1 = some [some [7]] := by
  have h := check_qdrant_exists_missing_index_degrades
    "Index required but not found: metadata.md5_hash" ⟨false, 0⟩
    [Except.error "Index required but not found: metadata.md5_hash",
     Except.error "Index required but not found: metadata.md5_hash"]
    (fun _ => some [7]) "a.pdf" "xxh" "content" "bge-m3" ["chunk one"] [] [] 0
    (by decide) (by decide)
  exact ⟨h.1, h.2.1, h.2.2⟩

/-! ## Theorems: coordinator without a log manager (C10) -/

/-- C10: constructed without a log manager — exactly as
`IngestionPipeline.__init__` constructs it — the coordinator performs no
dedup check and never returns the skip sentinel: for every input it returns
`some` of the per-chunk backend results (one backend call per chunk), and
neither the embedding-success ledger nor the skip ledger is touched (the
returned state differs from the input state only in the backend-call count). -/
theorem with_dedup_no_log_manager (dedup logging : Bool)
    (cE : String → Option Vec) (hq : Bool) (scroll : ScrollResult)
    (fn fh : String) (chunks : List String) (coll model : String)
    (force : Bool) (st : CoordState) :
    generate_batch_embeddings_with_dedup false dedup logging cE hq scroll
        fn fh chunks coll model force st =
      (some (chunks.map cE),
        { st with backend_calls := st.backend_calls + chunks.length }) := by
  unfold generate_batch_embeddings_with_dedup coordGenerate
  simp


/-! ## Theorems: pipeline orchestrator (C1, C3) -/

theorem is_uploaded_add_upload (st : PipelineState) (fn fh : String) :
    is_uploaded (add_upload st fn fh).upload_log fh = true := by
  simp [is_uploaded, add_upload, List.any_append]

theorem upload_stage_true_uploaded (e : PipelineEnv) (filename : String)
    (file_content : List Nat) (file_hash : String) (chunks : List Chunk)
    (fvec : Vec) (content_embeddings : List (Option Vec))
    (st st1 : PipelineState)
    (h : process_file_upload_stage e filename file_content file_hash chunks
      fvec content_embeddings st = (true, st1)) :
    is_uploaded st1.upload_log file_hash = true := by
  unfold process_file_upload_stage at h
  split at h
  · simp at h
  · split at h
    · simp at h
    · simp only [Prod.mk.injEq, true_and] at h
      subst h
      exact is_uploaded_add_upload _ filename file_hash

theorem dedup_stage_true_uploaded (e : PipelineEnv) (filename : String)
    (file_content : List Nat) (file_hash : String) (chunks : List Chunk)
    (fvec : Vec) (st st1 : PipelineState)
    (h : process_file_dedup_stage e filename file_content file_hash chunks
      fvec st = (true, st1)) :
    is_uploaded st1.upload_log file_hash = true := by
  unfold process_file_dedup_stage at h
  split at h
  · simp only [Prod.mk.injEq, true_and] at h
    subst h
    exact is_uploaded_add_upload _ filename file_hash
  · exact upload_stage_true_uploaded e filename file_content file_hash chunks
      fvec _ _ st1 h

theorem embed_stage_true_uploaded (e : PipelineEnv) (filename : String)
    (file_content : List Nat) (file_hash : String) (chunks : List Chunk)
    (st st1 : PipelineState)
    (h : process_file_embed_stage e filename file_content file_hash chunks st =
      (true, st1)) :
    is_uploaded st1.upload_log file_hash = true := by
  unfold process_file_embed_stage at h
  split at h
  · simp at h
  · split at h
    · simp at h
    · exact dedup_stage_true_uploaded e filename file_content file_hash chunks
        _ _ st1 h

theorem body_true_uploaded (e : PipelineEnv) (file_key filename : String)
    (file_content : List Nat) (file_hash : String) (st st1 : PipelineState)
    (h : process_file_body e file_key filename file_content file_hash st =
      (true, st1)) :
    is_uploaded st1.upload_log file_hash = true := by
  unfold process_file_body at h
  split at h
  · simp at h
  · split at h
    · simp at h
    · split at h
      · simp at h
      · split at h
        · simp at h
        · exact embed_stage_true_uploaded e filename file_content file_hash
            _ _ st1 h

/-- C1 amended: re-running `process_file` in the same environment (unchanged
bytes, same collaborators) after a run that returned success is a complete
no-op returning success with the state unchanged — zero additional
vector-store records, no embedding-backend invocation of any kind, and no
ledger write at all: in particular NO skip-event is appended to the skipped
ledger (the second run exits at the already-processed upload-ledger check,
and the pipeline constructs its `EmbeddingClient` without a log manager, so
the coordinator's skip logging is inert). -/
theorem process_file_rerun_idempotent (e : PipelineEnv) (key : String)
    (st st1 : PipelineState)
    (h : process_file e key st = Except.ok (true, st1)) :
    process_file e key st1 = Except.ok (true, st1) := by
  unfold process_file at h ⊢
  by_cases hskip : should_skip_file e.skip_extensions key
  · rw [if_pos hskip] at h ⊢
  · rw [if_neg hskip] at h ⊢
    cases hdl : e.download key with
    | none =>
      rw [hdl] at h
      simp at h
    | some content =>
      rw [hdl] at h
      dsimp only at h ⊢
      by_cases hemp : content.isEmpty
      · rw [if_pos hemp] at h
        simp at h
      · rw [if_neg hemp] at h ⊢
        by_cases hup : is_uploaded st.upload_log (e.hash_file content)
        · rw [if_pos hup] at h
          injection h with h2
          injection h2 with _ h3
          subst h3
          rw [if_pos hup]
        · rw [if_neg hup] at h
          injection h with h2
          have hb : process_file_body e key (basename key) content
              (e.hash_file content) st = (true, st1) := by
            rcases hres : process_file_body e key (basename key) content
                (e.hash_file content) st with ⟨b, st2⟩
            rw [hres] at h2
            exact h2
          have hupl := body_true_uploaded e key (basename key) content
            (e.hash_file content) st st1 hb
          rw [if_pos hupl]

/-- The fully successful concrete environment: every collaborator call
succeeds and the splitter returns the document as a single piece. -/
def demoEnv : PipelineEnv where
  download := fun _ => some [1, 2]
  hash_file := fun _ => "md5h"
  hash_file_lightweight := fun _ => "xxh"
  convert := fun _ => some "release notes body"
  upload_markdown := fun _ => true
  split := fun m => [m]
  hash_text := fun _ => "texthash"
  filename_embed := fun _ => some [1]
  content_embed := fun _ => some [2]
  uuid5 := fun n => n
  filename_upsert_ok := true
  content_upsert_ok := fun _ => true
  scroll := Except.ok []
  skip_extensions := []
  force_reprocess := false
  filename_collection := "filenames"
  content_collection := "content"
  content_model := "bge-m3"

/-- The empty initial pipeline state (fresh ledgers, empty collections). -/
def pState0 : PipelineState :=
  { conversion_log := [], upload_log := [], failed_log := [],
    coord := { embedding_log := [], skipped_log := [],
               dedup := { index_warning_shown := false, warnings_emitted := 0 },
               backend_calls := 0 },
    filename_store := [], content_store := [], filename_embed_calls := 0 }

/-- The state after the successful first run of `demoEnv` on `source/notes.pdf`. -/
def demoState1 : PipelineState :=
  match process_file demoEnv "source/notes.pdf" pState0 with
  | Except.ok r => r.2
  | Except.error _ => pState0

/-- C1 counterexample: on a concrete item whose first run succeeds, the
second run over unchanged bytes returns success with the state identical —
zero additional vector-store records and no embedding-backend call, as the
claim says — but the skipped ledger is empty after both runs: NO skip-event
is logged, contradicting the claim's skip-event clause.  (The second run
exits at the already-processed check; the coordinator's skip logging is
unreachable anyway because the pipeline passes no log manager.) -/
theorem pipeline_rerun_logs_no_skip_event :
    process_file demoEnv "source/notes.pdf" pState0 = Except.ok (true, demoState1) ∧
    process_file demoEnv "source/notes.pdf" demoState1 =
      Except.ok (true, demoState1) ∧
    demoState1.coord.skipped_log = [] ∧
    demoState1.coord.backend_calls = 1 ∧
    demoState1.filename_embed_calls = 1 ∧
    demoState1.content_store.length = 1 ∧
    demoState1.filename_store.length = 1 := by
  refine ⟨rfl, ?_, rfl, rfl, rfl, rfl, rfl⟩
  rfl

/-- C1 witness (for the amended theorem): applying the idempotence theorem to
the concrete successful first run. -/
theorem process_file_rerun_idempotent_witness :
    process_file demoEnv "source/notes.pdf" demoState1 =
      Except.ok (true, demoState1) :=
  process_file_rerun_idempotent demoEnv "source/notes.pdf" pState0 demoState1 rfl

/-- The same environment except that the download of `source/bad.pdf` fails
(the object store returns nothing for it). -/
def c3Env : PipelineEnv :=
  { demoEnv with
    download := fun k => if k = "source/bad.pdf" then none else some [1, 2] }

/-- C3: the claim is FALSE of the code, and the intent of the code clearly
matches the claim (the `except` block exists precisely to record the failure
and return `False`; the sibling script `convert_to_markdown.py` guards the
same handler with `file_hash if 'file_hash' in locals() else "unknown"`).
When the download step fails, `process_file`'s handler reads the unassigned
local `file_hash` and raises `UnboundLocalError`, which `run` does not catch:
nothing is written to the failure ledger and the whole run aborts instead of
continuing with the next item.  The same run would have processed the second
item fine on its own. -/
theorem run_aborts_on_download_failure :
    process_file c3Env "source/bad.pdf" pState0 = Except.error () ∧
    run_files c3Env ["source/bad.pdf", "source/good.pdf"] pState0 0 0 =
      Except.error () ∧
    (run_files c3Env ["source/good.pdf"] pState0 0 0).isOk = true := by
  refine ⟨rfl, rfl, ?_⟩
  rfl

end Ingest
